import Mathlib

/-!
Shallow embedding of the core of the JournalInsightAI repository
(`ingest_journal_images.py`, `simple_faiss.py`, `faiss_index.py`, `embedding.py`)
and proofs settling the frozen claims about its specification.

Modelling conventions:
* Python strings are lists of Unicode codepoints (`PyStr := List Nat`);
  Python string indices are list indices.
* External collaborators (OpenAI embedding/OCR/tagging, `dateparser`,
  `pytesseract`, the FAISS C++ backend, the relational store) are modelled as
  explicit inputs or parameters; everything the repository's own Python code
  computes is translated directly.
* `hashlib.sha256` is embedded as a full executable SHA-256 over bytes, with
  UTF-8 encoding of the codepoints, so fingerprint (in)equalities are computed,
  not assumed.
* Machine floats only appear as opaque similarity scores; the index model uses
  integer-component vectors, which suffices for the combinational logic the
  claims are about (ranking, filtering, truncation, counts).
-/

namespace JournalInsight

/-- A Python string: its list of Unicode codepoints. -/
abbrev PyStr := List Nat

/-- Codepoints of a Lean string literal, for writing concrete Python strings. -/
def str (s : String) : PyStr := s.toList.map Char.toNat

/-- The ASCII whitespace characters recognised by Python `str.strip()`
(space, tab, newline, carriage return, vertical tab, form feed). -/
def isSpace (c : Nat) : Bool := c = 32 || c = 9 || c = 10 || c = 13 || c = 11 || c = 12

/-- Python `s.strip()`: drop whitespace from both ends. -/
def strip (s : PyStr) : PyStr :=
  ((s.dropWhile isSpace).reverse.dropWhile isSpace).reverse

/-- Python `str.lower()` on one codepoint (ASCII range, which is all the
pipeline's own logic depends on). -/
def lowerChar (c : Nat) : Nat := if 65 ≤ c ∧ c ≤ 90 then c + 32 else c

/-- Python `s.lower()`. -/
def lower (s : PyStr) : PyStr := s.map lowerChar

/-- Replacement of one codepoint: newline becomes space. -/
def nlChar (c : Nat) : Nat := if c = 10 then 32 else c

/-- Python `s.replace(chr(10), chr(32))`: newline becomes space. -/
def replaceNL (s : PyStr) : PyStr := s.map nlChar

/-- Python `s.replace(chr(13), '')`: carriage returns are deleted. -/
def removeCR (s : PyStr) : PyStr := s.filter (fun c => c ≠ 13)

/-- `ingest_journal_images.compute_text_hash`, normalisation step:
`text.strip().lower().replace(chr(10), chr(32)).replace(chr(13), '')`. -/
def normalizedText (t : PyStr) : PyStr := removeCR (replaceNL (lower (strip t)))

/-- UTF-8 encoding of one codepoint. -/
def utf8Char (c : Nat) : List Nat :=
  if c < 128 then [c]
  else if c < 2048 then [192 + c / 64, 128 + c % 64]
  else if c < 65536 then [224 + c / 4096, 128 + (c / 64) % 64, 128 + c % 64]
  else [240 + c / 262144, 128 + (c / 4096) % 64, 128 + (c / 64) % 64, 128 + c % 64]

/-- UTF-8 encoding of a string (Python `s.encode('utf-8')`). -/
def utf8 (s : PyStr) : List Nat := (s.map utf8Char).flatten

end JournalInsight

namespace JournalInsight.SHA256

/-- 2^32, the word modulus. -/
def M32 : Nat := 4294967296

/-- Right rotation of a 32-bit word. -/
def rotr (n x : Nat) : Nat := ((x >>> n) ||| (x <<< (32 - n))) % M32

def bigSigma0 (x : Nat) : Nat := rotr 2 x ^^^ rotr 13 x ^^^ rotr 22 x

def bigSigma1 (x : Nat) : Nat := rotr 6 x ^^^ rotr 11 x ^^^ rotr 25 x

def smallSigma0 (x : Nat) : Nat := rotr 7 x ^^^ rotr 18 x ^^^ (x >>> 3)

def smallSigma1 (x : Nat) : Nat := rotr 17 x ^^^ rotr 19 x ^^^ (x >>> 10)

def ch (x y z : Nat) : Nat := (x &&& y) ^^^ ((x ^^^ 4294967295) &&& z)

def maj (x y z : Nat) : Nat := (x &&& y) ^^^ (x &&& z) ^^^ (y &&& z)

/-- The 64 SHA-256 round constants (FIPS 180-4, written in decimal). -/
def K : List Nat :=
  [1116352408, 1899447441, 3049323471, 3921009573, 961987163,
   1508970993, 2453635748, 2870763221, 3624381080, 310598401,
   607225278, 1426881987, 1925078388, 2162078206, 2614888103,
   3248222580, 3835390401, 4022224774, 264347078, 604807628,
   770255983, 1249150122, 1555081692, 1996064986, 2554220882,
   2821834349, 2952996808, 3210313671, 3336571891, 3584528711,
   113926993, 338241895, 666307205, 773529912, 1294757372,
   1396182291, 1695183700, 1986661051, 2177026350, 2456956037,
   2730485921, 2820302411, 3259730800, 3345764771, 3516065817,
   3600352804, 4094571909, 275423344, 430227734, 506948616,
   659060556, 883997877, 958139571, 1322822218, 1537002063,
   1747873779, 1955562222, 2024104815, 2227730452, 2361852424,
   2428436474, 2756734187, 3204031479, 3329325298]

/-- The initial hash value (FIPS 180-4, written in decimal). -/
def H0 : List Nat :=
  [1779033703, 3144134277, 1013904242, 2773480762,
   1359893119, 2600822924, 528734635, 1541459225]

/-- Big-endian 8-byte encoding of the message bit length. -/
def lenBytes (n : Nat) : List Nat :=
  (List.range 8).map (fun i => (n >>> (8 * (7 - i))) % 256)

/-- SHA-256 padding: `0x80`, zeros to 56 mod 64, then the 64-bit bit length. -/
def pad (msg : List Nat) : List Nat :=
  let L := msg.length
  msg ++ [128] ++ List.replicate ((119 - L % 64) % 64) 0 ++ lenBytes (8 * L)

/-- Big-endian 32-bit words from a byte list. -/
def toWords : List Nat → List Nat
  | b0 :: b1 :: b2 :: b3 :: rest =>
      (((b0 * 256 + b1) * 256 + b2) * 256 + b3) :: toWords rest
  | _ => []

/-- Split into 64-byte blocks (structural recursion on a length fuel, so the
kernel can evaluate it). -/
def chunksAux : Nat → List Nat → List (List Nat)
  | 0, _ => []
  | Nat.succ fuel, l => if l = [] then [] else l.take 64 :: chunksAux fuel (l.drop 64)

/-- Split into 64-byte blocks. -/
def chunks64 (l : List Nat) : List (List Nat) := chunksAux l.length l

/-- One message-schedule extension step. -/
def schedStep (w : List Nat) : List Nat :=
  let n := w.length
  w ++ [(smallSigma1 (w.getD (n - 2) 0) + w.getD (n - 7) 0 +
         smallSigma0 (w.getD (n - 15) 0) + w.getD (n - 16) 0) % M32]

/-- The 64-entry message schedule from the 16 block words. -/
def schedule (w : List Nat) : List Nat := schedStep^[48] w

/-- The eight working variables of the compression function. -/
structure Hash8 where
  a : Nat
  b : Nat
  c : Nat
  d : Nat
  e : Nat
  f : Nat
  g : Nat
  h : Nat

/-- One compression round. -/
def round (s : Hash8) (kw : Nat × Nat) : Hash8 :=
  let t1 := (s.h + bigSigma1 s.e + ch s.e s.f s.g + kw.1 + kw.2) % M32
  let t2 := (bigSigma0 s.a + maj s.a s.b s.c) % M32
  ⟨(t1 + t2) % M32, s.a, s.b, s.c, (s.d + t1) % M32, s.e, s.f, s.g⟩

/-- Compress one 64-byte block into the running hash. -/
def compress (hs : List Nat) (block : List Nat) : List Nat :=
  let w := schedule (toWords block)
  let s0 : Hash8 := ⟨hs.getD 0 0, hs.getD 1 0, hs.getD 2 0, hs.getD 3 0,
                     hs.getD 4 0, hs.getD 5 0, hs.getD 6 0, hs.getD 7 0⟩
  let s := (List.zip K w).foldl round s0
  [(hs.getD 0 0 + s.a) % M32, (hs.getD 1 0 + s.b) % M32,
   (hs.getD 2 0 + s.c) % M32, (hs.getD 3 0 + s.d) % M32,
   (hs.getD 4 0 + s.e) % M32, (hs.getD 5 0 + s.f) % M32,
   (hs.getD 6 0 + s.g) % M32, (hs.getD 7 0 + s.h) % M32]

/-- SHA-256 of a byte list, as eight 32-bit words. -/
def sha256Words (msg : List Nat) : List Nat := (chunks64 (pad msg)).foldl compress H0

/-- Lowercase hex character of a nibble. -/
def hexDigit (n : Nat) : Nat := if n < 10 then 48 + n else 87 + n

/-- Eight lowercase hex characters of a 32-bit word. -/
def wordToHex (w : Nat) : List Nat :=
  (List.range 8).map (fun i => hexDigit ((w >>> (28 - 4 * i)) % 16))

/-- SHA-256 hex digest of a byte list (Python `hashlib.sha256(b).hexdigest()`). -/
def sha256hex (msg : List Nat) : PyStr := ((sha256Words msg).map wordToHex).flatten

end JournalInsight.SHA256

namespace JournalInsight

/-- `ingest_journal_images.compute_text_hash`:
SHA-256 hex digest of the UTF-8 bytes of the normalised text. -/
def compute_text_hash (t : PyStr) : PyStr := SHA256.sha256hex (utf8 (normalizedText t))

/-- All whitespace removed — used to state that two texts differ only in
whitespace. -/
def dropAllSpace (s : PyStr) : PyStr := s.filter (fun c => !isSpace c)

/-! ## Date segmentation (`ingest_journal_images.extract_dates_and_split`)

`dateparser.search.search_dates` is an external collaborator; its result — a
list of `(matched substring, parsed date)` pairs — is an input of the model.
A parsed date value is opaque and modelled as a `Nat` tag. -/

/-- An opaque parsed calendar date (the `datetime` objects returned by
`dateparser` are never inspected by the pipeline, only carried along). -/
abbrev DateT := Nat

/-- Python `text.find(sub)`: index of the first occurrence, `none` for `-1`. -/
def findSub (text sub : PyStr) : Option Nat :=
  (List.range (text.length + 1)).find? (fun i => sub.isPrefixOf (text.drop i))

/-- Insertion (by ascending first component) placing the new element BEFORE
the first element of equal or greater key. Under `List.foldr` (which inserts
the list's last element first and its first element last), an element therefore
lands in front of every equal-key element inserted before it — i.e. in front of
exactly the equal-key elements that followed it in the input — so equal keys
keep their input order. -/
def insertPos (x : Nat × DateT × PyStr) :
    List (Nat × DateT × PyStr) → List (Nat × DateT × PyStr)
  | [] => [x]
  | y :: ys => if x.1 ≤ y.1 then x :: y :: ys else y :: insertPos x ys

/-- Sort by ascending position, equal positions keeping their input order:
Python's stable `date_positions.sort(key=lambda x: x[0])`. -/
def sortPos (l : List (Nat × DateT × PyStr)) : List (Nat × DateT × PyStr) :=
  l.foldr insertPos []

/-- The block loop of `extract_dates_and_split`: each block spans from its
date's position to the next date's position (the last block to end of text);
blocks are stripped and empty blocks are dropped. -/
def buildBlocks (text : PyStr) : List (Nat × DateT × PyStr) → List (Option DateT × PyStr)
  | [] => []
  | (pos, dobj, _) :: rest =>
    let endPos := match rest with
      | (pos2, _, _) :: _ => pos2
      | [] => text.length
    let bt := strip ((text.take endPos).drop pos)
    (if bt = [] then [] else [(some dobj, bt)]) ++ buildBlocks text rest

/-- `ingest_journal_images.extract_dates_and_split`, given the external
`search_dates` result (`[]` models both Python `None` and an empty list). -/
def extract_dates_and_split (text : PyStr) (found_dates : List (PyStr × DateT)) :
    List (Option DateT × PyStr) :=
  if found_dates.length ≤ 1 then
    [(found_dates.head?.map Prod.snd, text)]
  else
    let date_positions := found_dates.filterMap
      (fun pr => (findSub text pr.1).map (fun pos => (pos, pr.2, pr.1)))
    let sorted := sortPos date_positions
    let blocks := buildBlocks text sorted
    if blocks = [] then [(none, text)] else blocks

/-- Spec-side block of one span `(occurrence, endOffset)`: the trimmed slice
from the date's offset to the end offset, dropped when empty. -/
def blockOf (text : PyStr) (sp : (Nat × DateT × PyStr) × Nat) :
    Option (Option DateT × PyStr) :=
  let bt := strip ((text.take sp.2).drop sp.1.1)
  if bt = [] then none else some (some sp.1.2.1, bt)

/-- Spec-side spans: each occurrence paired with the next occurrence's offset,
the last with end-of-text. -/
def zipSpans (text : PyStr) (occs : List (Nat × DateT × PyStr)) :
    List ((Nat × DateT × PyStr) × Nat) :=
  List.zip occs ((occs.map (fun o => o.1)).drop 1 ++ [text.length])

/-- The date segmenter as the spec describes it (claim C4): occurrences sorted
by offset ascending, blocks spanning one offset to the next (the last to end of
text), trimmed, empties dropped, with a fallback to the whole text. -/
def segmentSpec (text : PyStr) (found_dates : List (PyStr × DateT)) :
    List (Option DateT × PyStr) :=
  if found_dates.length ≤ 1 then
    [(found_dates.head?.map Prod.snd, text)]
  else
    let occs := sortPos (found_dates.map
      (fun pr => ((findSub text pr.1).getD 0, pr.2, pr.1)))
    let blocks := (zipSpans text occs).filterMap (blockOf text)
    if blocks = [] then [(none, text)] else blocks

/-! ## Similarity index models (`faiss_index.py`, `simple_faiss.py`)

The FAISS backend (`faiss.IndexFlatIP`) and the embedding provider are
external: vectors live in the model as integer-component lists (a stand-in for
the unit-normalised float vectors; only ranking, filtering and counting matter
to the claims), and the backend's exact `search` on a flat inner-product index
— scores in descending order, ties by ascending ordinal — is modelled by
`indexSearch`. `embed` composed with normalisation enters as a function
parameter `emb`. -/

/-- A stored vector. -/
abbrev Vec := List Int

/-- Inner product of two vectors. -/
def dot (a b : Vec) : Int := (List.zip a b).foldl (fun acc p => acc + p.1 * p.2) 0

/-- One metadata row of the index side-table (`entry_id`, `entry_type`,
truncated text preview), as built by `add_entry`. -/
structure MetaEntry where
  id : Nat
  type : PyStr
  text_preview : PyStr
  deriving DecidableEq

/-- The `text_preview` computation of `add_entry`:
`text[:200] + "..." if len(text) > 200 else text`. -/
def preview (text : PyStr) : PyStr :=
  if 200 < text.length then text.take 200 ++ str "..." else text

/-- All (score, ordinal) pairs for a query over the stored vectors. -/
def scored (vecs : List Vec) (q : Vec) : List (Int × Nat) :=
  (List.range vecs.length).map (fun i => (dot q (vecs.getD i []), i))

/-- Insert into a descending-by-score list, BEFORE equal scores; under
`List.foldr` (last element inserted first, first element inserted last) this
keeps equal-score pairs in their input order, and `scored` enumerates ordinals
ascending, so ties come out in ascending ordinal order. -/
def insertDesc (x : Int × Nat) : List (Int × Nat) → List (Int × Nat)
  | [] => [x]
  | y :: ys => if y.1 ≤ x.1 then x :: y :: ys else y :: insertDesc x ys

/-- Sort scored pairs by descending score, ties by ascending ordinal. -/
def sortDesc (l : List (Int × Nat)) : List (Int × Nat) := l.foldr insertDesc []

/-- The FAISS backend call `index.search(query, n)` on a flat inner-product
index: the `n` best (score, ordinal) pairs, scores descending. -/
def indexSearch (vecs : List Vec) (q : Vec) (n : Nat) : List (Int × Nat) :=
  (sortDesc (scored vecs q)).take n

/-- Does a candidate row pass the `entry_type` filter?
(`if entry_type and metadata["type"] != entry_type: continue`). -/
def typeMatches (filt : Option PyStr) (m : MetaEntry) : Bool :=
  match filt with
  | some t => t = m.type
  | none => true

/-- In-memory state of `faiss_index.FAISSIndex`: the dense vector store and
the parallel metadata list. -/
structure FAISSIndex where
  index : List Vec
  metadata : List MetaEntry
  deriving DecidableEq

/-- `FAISSIndex.add_entry`: embed (external, parameter `emb`), append the
vector to the store, append the metadata row. (`save_index` persists to disk;
the claims settled on this class do not concern its disk state.) -/
def FAISSIndex.add_entry (emb : PyStr → Vec) (s : FAISSIndex)
    (text : PyStr) (entry_id : Nat) (entry_type : PyStr) : FAISSIndex :=
  { index := s.index ++ [emb text],
    metadata := s.metadata ++ [⟨entry_id, entry_type, preview text⟩] }

/-- `FAISSIndex._rebuild_index`: creates a fresh empty `IndexFlatIP` and — the
loop body over `self.metadata` is `pass` — re-adds nothing, so the vector
store comes out empty while the metadata is kept. -/
def FAISSIndex.rebuild (s : FAISSIndex) : FAISSIndex :=
  { s with index := [] }

/-- `FAISSIndex.remove_entry`: drop every metadata row matching
`(entry_id, entry_type)`; if anything was dropped, rebuild the index. -/
def FAISSIndex.remove_entry (s : FAISSIndex) (entry_id : Nat) (entry_type : PyStr) :
    FAISSIndex :=
  let md := s.metadata.filter (fun m => !(m.id = entry_id && m.type = entry_type))
  if md.length < s.metadata.length then FAISSIndex.rebuild { s with metadata := md }
  else { s with metadata := md }

/-- `stats()["total_entries"]` is `self.index.ntotal`: the vector count. -/
def FAISSIndex.total (s : FAISSIndex) : Nat := s.index.length

/-- The result-collection loop of `FAISSIndex.search`: walk candidates, look
the ordinal up in the metadata list (an out-of-range ordinal raises
`IndexError`, modelled as `none`, which the surrounding `except` turns into an
empty result), apply the type filter, stop once `k` results are collected. -/
def collectF (metadata : List MetaEntry) (filt : Option PyStr) (k : Nat) :
    List (Int × Nat) → List (Nat × Int × MetaEntry) → Option (List (Nat × Int × MetaEntry))
  | [], acc => some acc
  | c :: rest, acc =>
    if metadata.length ≤ c.2 then none
    else
      let m := metadata.getD c.2 ⟨0, [], []⟩
      if typeMatches filt m then
        if k ≤ acc.length + 1 then some (acc ++ [(m.id, c.1, m)])
        else collectF metadata filt k rest (acc ++ [(m.id, c.1, m)])
      else collectF metadata filt k rest acc

/-- `FAISSIndex.search`: empty index gives `[]`; otherwise over-fetch
`min(k * 3, ntotal)` nearest neighbours, filter by type, truncate to `k`.
A metadata lookup failure is caught and yields `[]`. -/
def FAISSIndex.search (s : FAISSIndex) (q : Vec) (k : Nat) (entry_type : Option PyStr) :
    List (Nat × Int × MetaEntry) :=
  if s.index.length = 0 then []
  else
    let search_k := min (k * 3) s.index.length
    match collectF s.metadata entry_type k (indexSearch s.index q search_k) [] with
    | some r => r
    | none => []

/-- First matching metadata row and the rest, for `update_entry`'s
find-and-pop loop. -/
def popFirst (entry_id : Nat) (entry_type : PyStr) :
    List MetaEntry → Option (MetaEntry × List MetaEntry)
  | [] => none
  | m :: rest =>
    if m.id = entry_id && m.type = entry_type then some (m, rest)
    else (popFirst entry_id entry_type rest).map (fun pr => (pr.1, m :: pr.2))

/-- `FAISSIndex.update_entry`: pop the first matching metadata row, rebuild if
one was found, then `add_entry` the new text. -/
def FAISSIndex.update_entry (emb : PyStr → Vec) (s : FAISSIndex)
    (entry_id : Nat) (new_text : PyStr) (entry_type : PyStr) : FAISSIndex :=
  match popFirst entry_id entry_type s.metadata with
  | some pr => FAISSIndex.add_entry emb (FAISSIndex.rebuild { s with metadata := pr.2 })
      new_text entry_id entry_type
  | none => FAISSIndex.add_entry emb s new_text entry_id entry_type

/-- The two persisted artifacts plus a read-failure flag (a corrupt file whose
read raises). `none` = the file does not exist. -/
structure FFiles where
  indexFile : Option (List Vec)
  metaFile : Option (List MetaEntry)
  readFails : Bool
  deriving DecidableEq

/-- `FAISSIndex.load_index`: inside one `try`, read the index file if present
(else create a new empty index), then read the metadata file if present (else
`[]`); any raised error falls back to a fresh empty index and metadata. The
two artifacts are loaded independently. -/
def FAISSIndex.load_index (fs : FFiles) : FAISSIndex :=
  if fs.readFails then { index := [], metadata := [] }
  else { index := fs.indexFile.getD [], metadata := fs.metaFile.getD [] }

/-- State of `simple_faiss.SimpleFAISSIndex`, including its two on-disk
artifacts and a flag making disk writes raise. -/
structure SimpleFAISSIndex where
  index : List Vec
  metadata : List MetaEntry
  diskIndex : Option (List Vec)
  diskMeta : Option (List MetaEntry)
  diskFails : Bool
  deriving DecidableEq

/-- `SimpleFAISSIndex.__init__` + `load_index`: start fresh; only when BOTH
files exist are they read (a read error falls back to fresh empty). -/
def SimpleFAISSIndex.init (diskIndex : Option (List Vec))
    (diskMeta : Option (List MetaEntry)) (readFails diskFails : Bool) :
    SimpleFAISSIndex :=
  if diskIndex.isSome && diskMeta.isSome then
    if readFails then ⟨[], [], diskIndex, diskMeta, diskFails⟩
    else ⟨diskIndex.getD [], diskMeta.getD [], diskIndex, diskMeta, diskFails⟩
  else ⟨[], [], diskIndex, diskMeta, diskFails⟩

/-- `SimpleFAISSIndex.save_index`: write both artifacts; an exception is
caught and only printed, so a failed write leaves the disk unchanged and the
caller none the wiser. -/
def SimpleFAISSIndex.save_index (s : SimpleFAISSIndex) : SimpleFAISSIndex :=
  if s.diskFails then s
  else { s with diskIndex := some s.index, diskMeta := some s.metadata }

/-- `SimpleFAISSIndex.add_entry`: append the (externally produced, normalised)
embedding and the metadata row, then `save_index`; the call returns normally
whether or not the save succeeded. -/
def SimpleFAISSIndex.add_entry (emb : PyStr → Vec) (s : SimpleFAISSIndex)
    (text : PyStr) (entry_id : Nat) (entry_type : PyStr) : SimpleFAISSIndex :=
  SimpleFAISSIndex.save_index
    { s with index := s.index ++ [emb text],
             metadata := s.metadata ++ [⟨entry_id, entry_type, preview text⟩] }

/-- The result-collection loop of `SimpleFAISSIndex.search`: unlike
`FAISSIndex.search` it guards `idx >= len(self.metadata)` with `continue`, so
an out-of-range ordinal is skipped, not an error. -/
def collectS (metadata : List MetaEntry) (filt : Option PyStr) (k : Nat) :
    List (Int × Nat) → List (Nat × Int × MetaEntry) → List (Nat × Int × MetaEntry)
  | [], acc => acc
  | c :: rest, acc =>
    if metadata.length ≤ c.2 then collectS metadata filt k rest acc
    else
      let m := metadata.getD c.2 ⟨0, [], []⟩
      if typeMatches filt m then
        if k ≤ acc.length + 1 then acc ++ [(m.id, c.1, m)]
        else collectS metadata filt k rest (acc ++ [(m.id, c.1, m)])
      else collectS metadata filt k rest acc

/-- `SimpleFAISSIndex.search`: empty index gives `[]`; otherwise over-fetch
`min(k * 2, ntotal)` nearest neighbours, filter by type, truncate to `k`. -/
def SimpleFAISSIndex.search (s : SimpleFAISSIndex) (q : Vec) (k : Nat)
    (entry_type : Option PyStr) : List (Nat × Int × MetaEntry) :=
  if s.index.length = 0 then []
  else
    let search_k := min (k * 2) s.index.length
    collectS s.metadata entry_type k (indexSearch s.index q search_k) []

/-- The result row a candidate contributes: `none` when its ordinal has no
metadata row or the type filter rejects it. -/
def resultOf (metadata : List MetaEntry) (filt : Option PyStr) (c : Int × Nat) :
    Option (Nat × Int × MetaEntry) :=
  if metadata.length ≤ c.2 then none
  else
    let m := metadata.getD c.2 ⟨0, [], []⟩
    if typeMatches filt m then some (m.id, c.1, m) else none

/-- The search procedure as the spec words it (claim C3): retrieve up to
`min(k * factor, total)` nearest neighbours by inner product, filter by the
category filter when present, truncate to the first `k` matches (which are in
descending similarity order); empty index gives the empty sequence. -/
def specSearch (factor : Nat) (vecs : List Vec) (metadata : List MetaEntry)
    (q : Vec) (k : Nat) (filt : Option PyStr) : List (Nat × Int × MetaEntry) :=
  if vecs.length = 0 then []
  else
    ((indexSearch vecs q (min (k * factor) vecs.length)).filterMap
      (resultOf metadata filt)).take k

/-! ## OCR with fallback (`ingest_journal_images.ocr_with_openai`,
`ocr_with_tesseract`)

Both engines are external collaborators. The primary (OpenAI Vision) call
either raises (`Except.error`) or returns `response.choices[0].message.content`
(`Option PyStr`: `None` is possible). The secondary (tesseract) either raises
inside its own `try` — its handler returns `("", 0.0)` — or yields raw text and
a confidence; confidences are rationals standing in for the floats. -/

/-- `ocr_with_tesseract`: strip the raw engine output; any exception inside is
caught and gives `("", 0.0)`. `fbRaw = none` models a raised exception. -/
def ocr_with_tesseract (fbRaw : Option PyStr) (fbConf : ℚ) : PyStr × ℚ :=
  match fbRaw with
  | some t => (strip t, fbConf)
  | none => ([], 0)

/-- `ocr_with_openai`: on a successful primary call the (possibly empty)
content is stripped and returned with confidence 0.9 — no fallback; only a
raised exception falls back to tesseract. -/
def ocr_with_openai (primary : Except PyStr (Option PyStr))
    (fbRaw : Option PyStr) (fbConf : ℚ) : PyStr × ℚ :=
  match primary with
  | .ok content =>
    (match content with
     | some t => strip t
     | none => [], (9 : ℚ) / 10)
  | .error _ => ocr_with_tesseract fbRaw fbConf

/-- Step 2 of `process_journal_image`: run OCR, then
`if not raw_text.strip(): return {"error": "No text extracted from image"}`. -/
def ocrStep (primary : Except PyStr (Option PyStr)) (fbRaw : Option PyStr)
    (fbConf : ℚ) : Except PyStr (PyStr × ℚ) :=
  let r := ocr_with_openai primary fbRaw fbConf
  if strip r.1 = [] then .error (str "No text extracted from image") else .ok r

/-! ## Per-image block processing and the run loop
(`ingest_journal_images.process_journal_image`, `ingest_journal_images`)

The relational store is modelled as the list of journal rows relevant to the
dedup lookups; `id`s are assigned by the store (parameter `nextId`,
incremented per insert). Tagging, embedding and the FAISS insert are external
to the dedup/hash logic claims C10 is about and are not carried in the row. -/

/-- A stored `JournalEntry` row (the columns the dedup logic reads/writes). -/
structure JRecord where
  rid : Nat
  date : Option DateT
  text : PyStr
  image_hash : Option PyStr
  transcript_hash : PyStr
  deriving DecidableEq

/-- The journal table. -/
abbrev DB := List JRecord

/-- `check_duplicate_image`: first row whose `image_hash` equals the given
perceptual hash. -/
def check_duplicate_image (ih : PyStr) (db : DB) : Option JRecord :=
  db.find? (fun r => r.image_hash = some ih)

/-- `check_duplicate_text`: first row whose `transcript_hash` equals the given
text hash. -/
def check_duplicate_text (th : PyStr) (db : DB) : Option JRecord :=
  db.find? (fun r => r.transcript_hash = th)

/-- The per-block loop of `process_journal_image` (step 4): for block `i`,
skip it if its text hash already exists, else commit a row — only block index
0 carries the image hash (`image_hash=image_hash if i == 0 else None`) — and
return the grown database plus the created ids in order. -/
def processBlocks (image_hash : PyStr) (db : DB) (nextId : Nat) (i : Nat) :
    List (Option DateT × PyStr) → DB × List Nat
  | [] => (db, [])
  | (dateObj, blockText) :: rest =>
    let th := compute_text_hash blockText
    match check_duplicate_text th db with
    | some _ => processBlocks image_hash db nextId (i + 1) rest
    | none =>
      let row : JRecord :=
        ⟨nextId, dateObj, blockText, if i = 0 then some image_hash else none, th⟩
      let out := processBlocks image_hash (db ++ [row]) (nextId + 1) (i + 1) rest
      (out.1, nextId :: out.2)

/-- Terminal outcomes of `process_journal_image` (the result dictionaries;
hash-computation failure is a fourth, earlier exit not needed by the claims). -/
inductive ProcessResult where
  | skippedDup (existingId : Nat)
  | errorNoText
  | processed (ids : List Nat)
  deriving DecidableEq

/-- `process_journal_image` for one image: duplicate-image pre-check, OCR text
emptiness check, date segmentation, then the per-block loop. The OCR text and
the `search_dates` result are the external inputs. -/
def process_journal_image (ih : PyStr) (ocrText : PyStr)
    (found_dates : List (PyStr × DateT)) (db : DB) (nextId : Nat) :
    ProcessResult × DB :=
  match check_duplicate_image ih db with
  | some r => (.skippedDup r.rid, db)
  | none =>
    if strip ocrText = [] then (.errorNoText, db)
    else
      let out := processBlocks ih db nextId 0 (extract_dates_and_split ocrText found_dates)
      (.processed out.2, out.1)

/-! ## Run-level orchestration (`ingest_journal_images.ingest_journal_images`)

Per image the loop checks `os.path.exists`, calls `process_journal_image`, and
files the returned dictionary into the summary. Nothing catches an exception
raised inside `process_journal_image` (e.g. by `embed` or
`faiss_index.add_entry`, both of which re-raise), so such an exception
propagates out of the loop; `ProcOutcome.raised` models that case. -/

/-- What processing one image does, as seen by the run loop. -/
inductive ProcOutcome where
  | errorRes (msg : PyStr)
  | skippedRes (existingId : Nat)
  | processedRes (entries : List Nat)
  | raised (e : PyStr)
  deriving DecidableEq

/-- One image of the batch: its path, whether the file exists, and what
processing it does. -/
structure ImageInput where
  path : PyStr
  onDisk : Bool
  outcome : ProcOutcome
  deriving DecidableEq

/-- Python `os.path.basename`. -/
def basename (p : PyStr) : PyStr := (p.reverse.takeWhile (fun c => c ≠ 47)).reverse

/-- The run summary dictionary. -/
structure Summary where
  processed : List Nat
  skipped : List PyStr
  errors : List PyStr
  deriving DecidableEq

/-- The `for image_path in image_paths` loop of `ingest_journal_images`:
missing files and `error`/`skipped`/`processed` results are filed into the
summary and the loop continues; an exception propagates immediately
(`Except.error`), abandoning the summary. -/
def ingestLoop : List ImageInput → Summary → Except PyStr Summary
  | [], summ => .ok summ
  | img :: rest, summ =>
    if !img.onDisk then
      ingestLoop rest { summ with errors := summ.errors ++ [str "File not found: " ++ img.path] }
    else
      match img.outcome with
      | .raised e => .error e
      | .errorRes m =>
        ingestLoop rest { summ with errors := summ.errors ++ [img.path ++ str ": " ++ m] }
      | .skippedRes _ =>
        ingestLoop rest { summ with skipped := summ.skipped ++ [basename img.path] }
      | .processedRes es =>
        ingestLoop rest { summ with processed := summ.processed ++ es }

/-- `ingest_journal_images`: run the loop with an empty summary. -/
def ingest_journal_images (imgs : List ImageInput) : Except PyStr Summary :=
  ingestLoop imgs ⟨[], [], []⟩

/-- Declarative per-image error entries (what the claim calls "recorded in the
run summary"). -/
def errorOf (img : ImageInput) : Option PyStr :=
  if !img.onDisk then some (str "File not found: " ++ img.path)
  else match img.outcome with
    | .errorRes m => some (img.path ++ str ": " ++ m)
    | _ => none

/-- Declarative per-image skipped entries. -/
def skippedOf (img : ImageInput) : Option PyStr :=
  if !img.onDisk then none
  else match img.outcome with
    | .skippedRes _ => some (basename img.path)
    | _ => none

/-- Declarative per-image processed entries. -/
def processedOf (img : ImageInput) : List Nat :=
  if !img.onDisk then []
  else match img.outcome with
    | .processedRes es => es
    | _ => []

/-- An image outcome that raises (rather than returning a result dict). -/
def raisesExc (img : ImageInput) : Bool :=
  match img.outcome with
  | .raised _ => img.onDisk
  | _ => false

/-! ## Concrete fixtures used by counterexamples and witnesses -/

/-- A stand-in (normalised) embedding function: every text embeds to `[1]`.
Vector values are irrelevant to the count/persistence claims it serves. -/
def embOne : PyStr → Vec := fun _ => [1]

/-- A `FAISSIndex` holding two journal entries (ids 1 and 2), built by two
inserts into the empty index. -/
def idx2 : FAISSIndex :=
  FAISSIndex.add_entry embOne
    (FAISSIndex.add_entry embOne ⟨[], []⟩ (str "alpha") 1 (str "journal"))
    (str "beta") 2 (str "journal")

/-- A fresh `SimpleFAISSIndex` whose on-disk artifacts hold zero entries and
whose disk writes fail. -/
def simpleBadDisk : SimpleFAISSIndex := ⟨[], [], some [], some [], true⟩

/-- Three stored vectors whose inner products with query `[1]` rank them in
ordinal order. -/
def cvecs : List Vec := [[3], [2], [1]]

/-- Metadata for `cvecs`: two journal entries ranked above one influence
entry. -/
def cmeta : List MetaEntry :=
  [⟨1, str "journal", str "t1"⟩, ⟨2, str "journal", str "t2"⟩,
   ⟨3, str "influence", str "t3"⟩]

/-- A concrete perceptual image hash. -/
def ih0 : PyStr := str "abcd1234"

/-- A concrete OCR text. -/
def ocr0 : PyStr := str "hello world"

/-- A database holding one prior record whose transcript hash equals the hash
of `ocr0` (so a run over `ocr0` skips its first — and only — block) and which
carries no image hash. -/
def db0 : DB := [⟨5, none, str "x", none, compute_text_hash (str "hello world")⟩]

/-- A three-image batch: an image that errors, a missing file, and an image
producing two entries — none of them raises. -/
def imgs0 : List ImageInput :=
  [⟨str "a.jpg", true, .errorRes (str "boom")⟩,
   ⟨str "missing.jpg", false, .processedRes []⟩,
   ⟨str "b.jpg", true, .processedRes [7, 8]⟩]

/-! ## SHA-256 sanity anchors -/

/-- FIPS 180-4 test vector: the digest of the empty message. -/
theorem sha256_fips_empty : SHA256.sha256hex [] =
    str "e3b0c44298fc1c149afbf4c8996fb92427ae41e4649b934ca495991b7852b855" := by decide

/-- FIPS 180-4 test vector: the digest of "abc". -/
theorem sha256_fips_abc : SHA256.sha256hex (utf8 (str "abc")) =
    str "ba7816bf8f01cfea414140de5dae2223b00361a396177a9cb410ff61f20015ad" := by decide

/-! ## Lemmas: text normalisation (claim C9) -/

lemma isSpace_iff (c : Nat) :
    isSpace c = true ↔ c = 32 ∨ c = 9 ∨ c = 10 ∨ c = 13 ∨ c = 11 ∨ c = 12 := by
  simp [isSpace]
  tauto

lemma lowerChar_idem (c : Nat) : lowerChar (lowerChar c) = lowerChar c := by
  unfold lowerChar
  by_cases h : 65 ≤ c ∧ c ≤ 90
  · rw [if_pos h, if_neg (by omega)]
  · rw [if_neg h, if_neg h]

lemma isSpace_lowerChar (c : Nat) : isSpace (lowerChar c) = isSpace c := by
  rw [Bool.eq_iff_iff, isSpace_iff, isSpace_iff]
  unfold lowerChar
  split <;> omega

lemma isSpace_nlChar (c : Nat) : isSpace (nlChar c) = isSpace c := by
  rw [Bool.eq_iff_iff, isSpace_iff, isSpace_iff]
  unfold nlChar
  split <;> omega

lemma nlChar_ne_ten (c : Nat) : nlChar c ≠ 10 := by
  unfold nlChar; split <;> omega

lemma nlChar_idem (c : Nat) : nlChar (nlChar c) = nlChar c := by
  by_cases h : c = 10 <;> simp [nlChar, h]

lemma lowerChar_charNorm (c : Nat) :
    lowerChar (nlChar (lowerChar c)) = nlChar (lowerChar c) := by
  unfold nlChar
  split
  · decide
  · exact lowerChar_idem c

lemma map_eq_self_of_mem {f : Nat → Nat} {l : List Nat} (h : ∀ c ∈ l, f c = c) :
    l.map f = l :=
  (List.map_congr_left h).trans (List.map_id l)

lemma dropWhile_idem (p : Nat → Bool) (l : List Nat) :
    List.dropWhile p (List.dropWhile p l) = List.dropWhile p l := by
  induction l with
  | nil => rfl
  | cons a t ih =>
    rw [List.dropWhile_cons]
    split
    · exact ih
    · next h => exact List.dropWhile_cons_of_neg h

lemma head_not_of_dropWhile_fix {p : Nat → Bool} {a : Nat} {l : List Nat}
    (h : List.dropWhile p (a :: l) = a :: l) : p a = false := by
  cases hpa : p a with
  | false => rfl
  | true =>
    rw [List.dropWhile_cons_of_pos hpa] at h
    have h1 := congrArg List.length h
    have h2 := (@List.dropWhile_sublist Nat l p).length_le
    simp only [List.length_cons] at h1
    omega

lemma dropWhile_fix_filter_map {f : Nat → Nat} {p : Nat → Bool} {l : List Nat}
    (hf : ∀ c, isSpace (f c) = isSpace c)
    (hp : ∀ c, p c = false → isSpace c = true)
    (h : List.dropWhile isSpace l = l) :
    List.dropWhile isSpace (List.filter p (List.map f l)) =
      List.filter p (List.map f l) := by
  cases l with
  | nil => rfl
  | cons a t =>
    have ha : isSpace a = false := head_not_of_dropWhile_fix h
    have hfa : isSpace (f a) = false := by rw [hf, ha]
    have hpa : p (f a) = true := by
      cases hq : p (f a) with
      | true => rfl
      | false => rw [hp _ hq] at hfa; exact Bool.noConfusion hfa
    rw [List.map_cons, List.filter_cons_of_pos hpa]
    exact List.dropWhile_cons_of_neg (by simp [hfa])

lemma strip_trimmed_right (t : PyStr) :
    List.dropWhile isSpace (strip t).reverse = (strip t).reverse := by
  unfold strip
  rw [List.reverse_reverse]
  exact dropWhile_idem _ _

lemma strip_trimmed_left (t : PyStr) :
    List.dropWhile isSpace (strip t) = strip t := by
  unfold strip
  set x := List.dropWhile isSpace t with hx
  set y := List.dropWhile isSpace x.reverse with hy
  have hxfix : List.dropWhile isSpace x = x := dropWhile_idem _ _
  have hsuff : y <:+ x.reverse := List.dropWhile_suffix _
  cases hyr : y.reverse with
  | nil => rfl
  | cons b ys =>
    have hpre : y.reverse <+: x := by
      have h1 := List.reverse_prefix.mpr hsuff
      rwa [List.reverse_reverse] at h1
    obtain ⟨r, hr⟩ := hpre
    rw [hyr, List.cons_append] at hr
    rw [← hr] at hxfix
    exact List.dropWhile_cons_of_neg (by simp [head_not_of_dropWhile_fix hxfix])

lemma normalizedText_eq (t : PyStr) :
    normalizedText t = List.filter (fun c => c ≠ 13)
      (List.map (fun c => nlChar (lowerChar c)) (strip t)) := by
  unfold normalizedText removeCR replaceNL lower
  rw [List.map_map]
  rfl

lemma strip_normalizedText (t : PyStr) :
    strip (normalizedText t) = normalizedText t := by
  have hf : ∀ c, isSpace (nlChar (lowerChar c)) = isSpace c := fun c => by
    rw [isSpace_nlChar, isSpace_lowerChar]
  have hp : ∀ c : Nat, (fun c : Nat => (decide (c ≠ 13))) c = false → isSpace c = true := by
    intro c hc
    simp only [decide_eq_false_iff_not, not_not] at hc
    subst hc; rfl
  have h1 := dropWhile_fix_filter_map hf hp (strip_trimmed_left t)
  have h2 := dropWhile_fix_filter_map hf hp (strip_trimmed_right t)
  rw [normalizedText_eq]
  show ((List.dropWhile isSpace _).reverse.dropWhile isSpace).reverse = _
  rw [h1, ← List.filter_reverse, ← List.map_reverse, h2,
    List.map_reverse, List.filter_reverse, List.reverse_reverse]

lemma lower_normalizedText (t : PyStr) :
    lower (normalizedText t) = normalizedText t := by
  show List.map lowerChar (normalizedText t) = normalizedText t
  apply map_eq_self_of_mem
  intro c hc
  rw [normalizedText_eq, List.mem_filter] at hc
  obtain ⟨hcm, _⟩ := hc
  rw [List.mem_map] at hcm
  obtain ⟨d, _, rfl⟩ := hcm
  exact lowerChar_charNorm d

lemma replaceNL_normalizedText (t : PyStr) :
    replaceNL (normalizedText t) = normalizedText t := by
  show List.map nlChar (normalizedText t) = normalizedText t
  apply map_eq_self_of_mem
  intro c hc
  rw [normalizedText_eq, List.mem_filter] at hc
  obtain ⟨hcm, _⟩ := hc
  rw [List.mem_map] at hcm
  obtain ⟨d, _, rfl⟩ := hcm
  exact nlChar_idem (lowerChar d)

lemma removeCR_normalizedText (t : PyStr) :
    removeCR (normalizedText t) = normalizedText t := by
  unfold removeCR
  apply List.filter_eq_self.mpr
  intro a ha
  rw [normalizedText_eq] at ha
  have hq := List.of_mem_filter ha
  exact hq

/-- The normalisation inside `compute_text_hash` is idempotent. -/
theorem normalizedText_idem (t : PyStr) :
    normalizedText (normalizedText t) = normalizedText t := by
  show removeCR (replaceNL (lower (strip (normalizedText t)))) = normalizedText t
  rw [strip_normalizedText, lower_normalizedText, replaceNL_normalizedText,
    removeCR_normalizedText]

lemma dropWhile_map_comm {g : Nat → Nat} (hg : ∀ c, isSpace (g c) = isSpace c)
    (l : List Nat) :
    List.dropWhile isSpace (l.map g) = (List.dropWhile isSpace l).map g := by
  induction l with
  | nil => rfl
  | cons a t ih =>
    rw [List.map_cons, List.dropWhile_cons, hg a, List.dropWhile_cons]
    by_cases h : isSpace a = true
    · rw [if_pos h, if_pos h]; exact ih
    · rw [if_neg h, if_neg h, List.map_cons]

lemma strip_map_comm {g : Nat → Nat} (hg : ∀ c, isSpace (g c) = isSpace c)
    (l : List Nat) : strip (l.map g) = (strip l).map g := by
  unfold strip
  rw [dropWhile_map_comm hg, ← List.map_reverse, dropWhile_map_comm hg,
    ← List.map_reverse]

lemma strip_lower (t : PyStr) : strip (lower t) = lower (strip t) :=
  strip_map_comm isSpace_lowerChar t

lemma lower_lower (l : PyStr) : lower (lower l) = lower l := by
  unfold lower
  rw [List.map_map]
  exact List.map_congr_left (fun a _ => lowerChar_idem a)

lemma normalizedText_lower (t : PyStr) :
    normalizedText (lower t) = normalizedText t := by
  unfold normalizedText
  rw [strip_lower, lower_lower]

/-- C9 (amended): for every text `t`, `compute_text_hash t` equals
`compute_text_hash` of the code's normalisation of `t` (trim, lowercase,
newline→space, drop carriage returns); in particular texts differing only in
letter case hash identically. Interior-whitespace differences are NOT
normalised (see the counterexample). -/
theorem C9_fingerprint_normalization_invariant (t : PyStr) :
    compute_text_hash t = compute_text_hash (normalizedText t) ∧
    compute_text_hash (lower t) = compute_text_hash t := by
  constructor
  · unfold compute_text_hash
    rw [normalizedText_idem]
  · unfold compute_text_hash
    rw [normalizedText_lower]

/-- C9 counterexample: "a b" and "ab" differ only in whitespace, yet their
`compute_text_hash` fingerprints differ — normalisation does not collapse
interior whitespace, refuting "any two texts differing only in whitespace …
hash identically". -/
theorem C9_interior_whitespace_hashes_differ :
    dropAllSpace (str "a b") = dropAllSpace (str "ab") ∧
    compute_text_hash (str "a b") ≠ compute_text_hash (str "ab") :=
  ⟨by decide, by decide⟩

/-! ## Lemmas: date segmentation (claim C4) -/

lemma datePositions_eq (text : PyStr) (fd : List (PyStr × DateT))
    (h : ∀ pr ∈ fd, findSub text pr.1 ≠ none) :
    fd.filterMap (fun pr => (findSub text pr.1).map (fun pos => (pos, pr.2, pr.1)))
      = fd.map (fun pr => ((findSub text pr.1).getD 0, pr.2, pr.1)) := by
  induction fd with
  | nil => rfl
  | cons a t ih =>
    have ha := h a (List.mem_cons_self a t)
    cases hfa : findSub text a.1 with
    | none => exact absurd hfa ha
    | some p =>
      simp only [List.filterMap_cons, List.map_cons, hfa, Option.map_some',
        Option.getD_some]
      rw [ih (fun pr hpr => h pr (List.mem_cons_of_mem a hpr))]

lemma buildBlocks_eq (text : PyStr) (l : List (Nat × DateT × PyStr)) :
    buildBlocks text l = (zipSpans text l).filterMap (blockOf text) := by
  induction l with
  | nil => rfl
  | cons x rest ih =>
    cases rest with
    | nil =>
      simp only [buildBlocks, zipSpans, blockOf, List.map_cons, List.map_nil,
        List.drop, List.nil_append, List.zip_cons_cons, List.zip_nil_right,
        List.filterMap_cons, List.filterMap_nil]
      split
      · rfl
      · rfl
    | cons y rest2 =>
      have hz : zipSpans text (x :: y :: rest2)
          = (x, y.1) :: zipSpans text (y :: rest2) := by
        simp [zipSpans]
      rw [hz, List.filterMap_cons, ← ih]
      simp only [buildBlocks, blockOf]
      split <;> simp

/-- C4: `extract_dates_and_split` implements exactly the segmentation the spec
describes — zero/one date gives the whole text with that date (or null);
several dates give blocks from each date's offset (occurrences sorted by
offset ascending, ties stable) to the next date's offset, the last to
end-of-text, trimmed, empty blocks dropped, and if no block survives the whole
text comes back as a single null-dated block. Hypothesis: every matched date
string does occur in the text (`dateparser` returns substrings of the text,
so its matches always do). -/
theorem C4_segmentation_matches_spec (text : PyStr) (fd : List (PyStr × DateT))
    (hocc : ∀ pr ∈ fd, findSub text pr.1 ≠ none) :
    extract_dates_and_split text fd = segmentSpec text fd := by
  simp only [extract_dates_and_split, segmentSpec]
  by_cases hlen : fd.length ≤ 1
  · rw [if_pos hlen, if_pos hlen]
  · rw [if_neg hlen, if_neg hlen, datePositions_eq text fd hocc, buildBlocks_eq]

/-- Witness for C4 at the spec's own example: a text with the two dates
"June 12, 2025" and "June 13, 2025". -/
theorem C4_witness :
    (∀ pr ∈ ([(str "June 12, 2025", 1), (str "June 13, 2025", 2)] :
        List (PyStr × DateT)),
      findSub (str "June 12, 2025 went hiking. June 13, 2025 rested.") pr.1 ≠ none) ∧
    extract_dates_and_split (str "June 12, 2025 went hiking. June 13, 2025 rested.")
        [(str "June 12, 2025", 1), (str "June 13, 2025", 2)]
      = segmentSpec (str "June 12, 2025 went hiking. June 13, 2025 rested.")
        [(str "June 12, 2025", 1), (str "June 13, 2025", 2)] :=
  ⟨by decide, C4_segmentation_matches_spec _ _ (by decide)⟩

/-- Stability anchor at tied offsets: when two matched date strings alias to
the same offset ("June 12, 2025" and "June 12" both at 0), the stable sort
keeps them in match order, the zero-length first block is trimmed away, and —
exactly as in the Python code — the LATER match's date (here 2) is the one
attached to the surviving whole-text block. -/
theorem segmentation_tied_offsets_keep_later_date :
    extract_dates_and_split (str "June 12, 2025 foo June 12 bar")
        [(str "June 12, 2025", 1), (str "June 12", 2)]
      = [(some 2, str "June 12, 2025 foo June 12 bar")] := by decide

/-! ## Claims C1 and C6: removal rebuilds an EMPTY index -/

/-- C1 (evaluation at the failing input): with two journal entries inserted,
`remove_entry 1 "journal"` deletes the metadata row, but the "rebuild" leaves
the vector store EMPTY — `stats().total` is 0, not N-1 = 1, and every
subsequent search returns nothing at all (the surviving entry 2 included),
because `_rebuild_index` re-adds no vectors. -/
theorem C1_remove_rebuild_clears_index :
    idx2.total = 2 ∧
    (idx2.remove_entry 1 (str "journal")).metadata.map MetaEntry.id = [2] ∧
    (idx2.remove_entry 1 (str "journal")).total = 0 ∧
    (idx2.remove_entry 1 (str "journal")).search [1] 5 none = [] := by decide

/-- C6 (evaluation at the failing input): immediately after `remove_entry`
returns, the metadata has 1 row while the vector store has 0 vectors; after
`update_entry` the metadata has 2 rows while the store has 1 vector — the
metadata/vector parallel-array invariant is observably violated outside a
rebuild. -/
theorem C6_metadata_vector_counts_diverge :
    ((idx2.remove_entry 1 (str "journal")).metadata.length = 1 ∧
     (idx2.remove_entry 1 (str "journal")).index.length = 0) ∧
    ((idx2.update_entry embOne 1 (str "gamma") (str "journal")).metadata.length = 2 ∧
     (idx2.update_entry embOne 1 (str "gamma") (str "journal")).index.length = 1) := by
  decide

/-! ## Claim C7: insert persistence -/

/-- C7 counterexample: with a failing disk, two consecutive `add_entry` calls
both return normally (no exception escapes — `save_index` swallows it), the
in-memory index reaches 2 entries while the on-disk artifacts still hold 0 —
the on-disk index lags committed records by TWO operations. -/
theorem C7_failed_save_swallowed :
    (SimpleFAISSIndex.add_entry embOne
        (SimpleFAISSIndex.add_entry embOne simpleBadDisk (str "alpha") 1 (str "journal"))
        (str "beta") 2 (str "journal")).index.length = 2 ∧
    (SimpleFAISSIndex.add_entry embOne
        (SimpleFAISSIndex.add_entry embOne simpleBadDisk (str "alpha") 1 (str "journal"))
        (str "beta") 2 (str "journal")).diskIndex = some [] ∧
    (SimpleFAISSIndex.add_entry embOne
        (SimpleFAISSIndex.add_entry embOne simpleBadDisk (str "alpha") 1 (str "journal"))
        (str "beta") 2 (str "journal")).diskMeta = some [] := by decide

/-- C7 (amended): `add_entry` appends the vector and metadata row and invokes
the save synchronously before returning; when the save succeeds the disk holds
exactly the new state, but when it fails the exception is swallowed — the
insert still returns normally with the disk unchanged, so the disk can lag by
arbitrarily many operations. -/
theorem C7_insert_persistence (emb : PyStr → Vec) (s : SimpleFAISSIndex)
    (text : PyStr) (entry_id : Nat) (entry_type : PyStr) :
    (SimpleFAISSIndex.add_entry emb s text entry_id entry_type).index
        = s.index ++ [emb text] ∧
    (SimpleFAISSIndex.add_entry emb s text entry_id entry_type).metadata
        = s.metadata ++ [⟨entry_id, entry_type, preview text⟩] ∧
    (SimpleFAISSIndex.add_entry emb s text entry_id entry_type).diskIndex
        = (if s.diskFails then s.diskIndex else some (s.index ++ [emb text])) ∧
    (SimpleFAISSIndex.add_entry emb s text entry_id entry_type).diskMeta
        = (if s.diskFails then s.diskMeta
           else some (s.metadata ++ [⟨entry_id, entry_type, preview text⟩])) := by
  by_cases h : s.diskFails = true <;>
    simp [SimpleFAISSIndex.add_entry, SimpleFAISSIndex.save_index, h]

/-! ## Claim C8: loading the persisted artifacts -/

/-- C8 counterexample: for `FAISSIndex`, when the vector-store file exists
(holding one vector) but the metadata file is absent, `load_index` produces a
PARTIAL load — one vector, zero metadata rows — not the fresh empty index the
claim requires. -/
theorem C8_partial_load :
    FAISSIndex.load_index ⟨some [[1]], none, false⟩ = ⟨[[1]], []⟩ ∧
    ([[1]] : List Vec) ≠ [] := by decide

/-- C8 (amended): `SimpleFAISSIndex` behaves as claimed — its initialisation
yields either the fresh empty state or exactly the two artifacts together,
never a partial load; `FAISSIndex.load_index`, however, loads the two
artifacts independently (absence of one is replaced by an empty default while
the other is still loaded), so for it only a read failure produces the fresh
empty state. -/
theorem C8_load_behaviour (fs : FFiles) (dF : Bool) :
    (((SimpleFAISSIndex.init fs.indexFile fs.metaFile fs.readFails dF).index = [] ∧
      (SimpleFAISSIndex.init fs.indexFile fs.metaFile fs.readFails dF).metadata = []) ∨
     (fs.indexFile
        = some (SimpleFAISSIndex.init fs.indexFile fs.metaFile fs.readFails dF).index ∧
      fs.metaFile
        = some (SimpleFAISSIndex.init fs.indexFile fs.metaFile fs.readFails dF).metadata)) ∧
    (fs.readFails = false →
      FAISSIndex.load_index fs = ⟨fs.indexFile.getD [], fs.metaFile.getD []⟩) := by
  constructor
  · cases hI : fs.indexFile <;> cases hM : fs.metaFile <;> cases hR : fs.readFails <;>
      simp [SimpleFAISSIndex.init]
  · intro h
    simp [FAISSIndex.load_index, h]

/-- Witness for C8 at a concrete file state (index file present, metadata file
absent, no read failure). -/
theorem C8_witness :
    (((SimpleFAISSIndex.init (some [[1]]) none false false).index = [] ∧
      (SimpleFAISSIndex.init (some [[1]]) none false false).metadata = []) ∨
     ((some [[1]] : Option (List Vec))
        = some (SimpleFAISSIndex.init (some [[1]]) none false false).index ∧
      (none : Option (List MetaEntry))
        = some (SimpleFAISSIndex.init (some [[1]]) none false false).metadata)) ∧
    FAISSIndex.load_index ⟨some [[1]], none, false⟩ = ⟨[[1]], []⟩ :=
  ⟨(C8_load_behaviour ⟨some [[1]], none, false⟩ false).1,
   (C8_load_behaviour ⟨some [[1]], none, false⟩ false).2 rfl⟩

/-! ## Lemmas: k-NN search (claim C3) -/

lemma mem_insertDesc {x y : Int × Nat} {l : List (Int × Nat)} :
    y ∈ insertDesc x l ↔ y = x ∨ y ∈ l := by
  induction l with
  | nil => simp [insertDesc]
  | cons a t ih =>
    unfold insertDesc
    split
    · simp [List.mem_cons]
    · simp [List.mem_cons, ih]
      tauto

lemma mem_sortDesc {y : Int × Nat} {l : List (Int × Nat)} :
    y ∈ sortDesc l ↔ y ∈ l := by
  induction l with
  | nil => simp [sortDesc]
  | cons a t ih =>
    show y ∈ insertDesc a (sortDesc t) ↔ _
    rw [mem_insertDesc, ih]
    simp [List.mem_cons]

lemma indexSearch_valid (vecs : List Vec) (q : Vec) (n : Nat) :
    ∀ c ∈ indexSearch vecs q n, c.2 < vecs.length := by
  intro c hc
  unfold indexSearch at hc
  have h1 := List.take_subset n _ hc
  rw [mem_sortDesc] at h1
  unfold scored at h1
  rw [List.mem_map] at h1
  obtain ⟨i, hi, rfl⟩ := h1
  simpa using List.mem_range.mp hi

lemma collectF_eq (metadata : List MetaEntry) (filt : Option PyStr) (k : Nat)
    (cands : List (Int × Nat)) :
    ∀ acc : List (Nat × Int × MetaEntry),
      (∀ c ∈ cands, c.2 < metadata.length) → acc.length < k →
      collectF metadata filt k cands acc
        = some (acc ++ (cands.filterMap (resultOf metadata filt)).take (k - acc.length)) := by
  induction cands with
  | nil => intro acc _ _; simp [collectF]
  | cons c rest ih =>
    intro acc hv hk
    have hc : c.2 < metadata.length := hv c (List.mem_cons_self c rest)
    have hrest : ∀ x ∈ rest, x.2 < metadata.length :=
      fun x hx => hv x (List.mem_cons_of_mem c hx)
    rw [List.filterMap_cons]
    simp only [collectF, resultOf, if_neg (show ¬metadata.length ≤ c.2 by omega)]
    by_cases ht : typeMatches filt (metadata.getD c.2 ⟨0, [], []⟩) = true
    · simp only [if_pos ht]
      by_cases hk2 : k ≤ acc.length + 1
      · rw [if_pos hk2]
        have hkk : k - acc.length = 1 := by omega
        simp [hkk]
      · rw [if_neg hk2, ih _ hrest (by simp; omega)]
        have hkk : k - acc.length = (k - (acc.length + 1)) + 1 := by omega
        simp [hkk, List.length_append]
    · simp only [if_neg ht]
      rw [ih _ hrest hk]

lemma collectS_eq (metadata : List MetaEntry) (filt : Option PyStr) (k : Nat)
    (cands : List (Int × Nat)) :
    ∀ acc : List (Nat × Int × MetaEntry),
      (∀ c ∈ cands, c.2 < metadata.length) → acc.length < k →
      collectS metadata filt k cands acc
        = acc ++ (cands.filterMap (resultOf metadata filt)).take (k - acc.length) := by
  induction cands with
  | nil => intro acc _ _; simp [collectS]
  | cons c rest ih =>
    intro acc hv hk
    have hc : c.2 < metadata.length := hv c (List.mem_cons_self c rest)
    have hrest : ∀ x ∈ rest, x.2 < metadata.length :=
      fun x hx => hv x (List.mem_cons_of_mem c hx)
    rw [List.filterMap_cons]
    simp only [collectS, resultOf, if_neg (show ¬metadata.length ≤ c.2 by omega)]
    by_cases ht : typeMatches filt (metadata.getD c.2 ⟨0, [], []⟩) = true
    · simp only [if_pos ht]
      by_cases hk2 : k ≤ acc.length + 1
      · rw [if_pos hk2]
        have hkk : k - acc.length = 1 := by omega
        simp [hkk]
      · rw [if_neg hk2, ih _ hrest (by simp; omega)]
        have hkk : k - acc.length = (k - (acc.length + 1)) + 1 := by omega
        simp [hkk, List.length_append]
    · simp only [if_neg ht]
      rw [ih _ hrest hk]

/-- C3 (amended): whenever the metadata list parallels the vector store, both
search implementations behave as the spec describes EXCEPT for the over-fetch
factor: `FAISSIndex.search` retrieves up to `min(k * 3, total)` nearest
neighbours while `SimpleFAISSIndex.search` retrieves only `min(k * 2, total)`;
both then filter by category and truncate to the first `k` matches in
descending similarity order, and both return `[]` on an empty index. -/
theorem C3_search_overfetch_factors (vecs : List Vec) (metadata : List MetaEntry)
    (q : Vec) (k : Nat) (filt : Option PyStr)
    (dI : Option (List Vec)) (dM : Option (List MetaEntry)) (dF : Bool)
    (hlen : metadata.length = vecs.length) :
    FAISSIndex.search ⟨vecs, metadata⟩ q k filt = specSearch 3 vecs metadata q k filt ∧
    SimpleFAISSIndex.search ⟨vecs, metadata, dI, dM, dF⟩ q k filt
      = specSearch 2 vecs metadata q k filt := by
  have hval : ∀ n, ∀ c ∈ indexSearch vecs q n, c.2 < metadata.length := by
    intro n c hc
    rw [hlen]
    exact indexSearch_valid vecs q n c hc
  constructor
  · by_cases hz : vecs.length = 0
    · simp [FAISSIndex.search, specSearch, hz]
    · by_cases hk : k = 0
      · subst hk
        simp [FAISSIndex.search, specSearch, hz, collectF, indexSearch]
      · have hC := collectF_eq metadata filt k
          (indexSearch vecs q (min (k * 3) vecs.length)) [] (hval _)
          (by simp only [List.length_nil]; omega)
        simp [FAISSIndex.search, specSearch, hz, hC]
  · by_cases hz : vecs.length = 0
    · simp [SimpleFAISSIndex.search, specSearch, hz]
    · by_cases hk : k = 0
      · subst hk
        simp [SimpleFAISSIndex.search, specSearch, hz, collectS, indexSearch]
      · have hC := collectS_eq metadata filt k
          (indexSearch vecs q (min (k * 2) vecs.length)) [] (hval _)
          (by simp only [List.length_nil]; omega)
        simp [SimpleFAISSIndex.search, specSearch, hz, hC]

/-- Witness for C3 at a concrete three-entry index. -/
theorem C3_witness :
    FAISSIndex.search ⟨cvecs, cmeta⟩ [1] 1 (some (str "influence"))
      = specSearch 3 cvecs cmeta [1] 1 (some (str "influence")) ∧
    SimpleFAISSIndex.search ⟨cvecs, cmeta, none, none, false⟩ [1] 1 (some (str "influence"))
      = specSearch 2 cvecs cmeta [1] 1 (some (str "influence")) :=
  C3_search_overfetch_factors cvecs cmeta [1] 1 (some (str "influence"))
    none none false (by decide)

/-- C3 counterexample: on three entries ranked journal, journal, influence,
a `k = 1` influence-filtered query comes back EMPTY from
`SimpleFAISSIndex.search` — its `min(k * 2, total) = 2` over-fetch sees only
the two journal entries — while the claimed `min(k * 3, total)` retrieval
would return the influence entry (id 3). -/
theorem C3_simple_search_misses_match :
    SimpleFAISSIndex.search ⟨cvecs, cmeta, none, none, false⟩ [1] 1
        (some (str "influence")) = [] ∧
    specSearch 3 cvecs cmeta [1] 1 (some (str "influence"))
      = [(3, 1, ⟨3, str "influence", str "t3"⟩)] := by decide

/-! ## Lemmas: run-level orchestration (claim C2) -/

lemma ingestLoop_no_raise (imgs : List ImageInput) :
    ∀ s : Summary, (∀ i ∈ imgs, raisesExc i = false) →
    ingestLoop imgs s = .ok ⟨s.processed ++ (imgs.map processedOf).flatten,
      s.skipped ++ imgs.filterMap skippedOf,
      s.errors ++ imgs.filterMap errorOf⟩ := by
  induction imgs with
  | nil => intro s _; simp [ingestLoop]
  | cons img rest ih =>
    intro s h
    have hrest : ∀ i ∈ rest, raisesExc i = false :=
      fun i hi => h i (List.mem_cons_of_mem _ hi)
    by_cases hd : img.onDisk
    · cases ho : img.outcome with
      | raised e =>
        have hr := h img (List.mem_cons_self _ _)
        rw [raisesExc, ho, hd] at hr
        exact Bool.noConfusion hr
      | errorRes m =>
        simp [ingestLoop, hd, ho, ih _ hrest, processedOf, skippedOf, errorOf]
      | skippedRes eid =>
        simp [ingestLoop, hd, ho, ih _ hrest, processedOf, skippedOf, errorOf]
      | processedRes es =>
        simp [ingestLoop, hd, ho, ih _ hrest, processedOf, skippedOf, errorOf]
    · simp [ingestLoop, hd, ih _ hrest, processedOf, skippedOf, errorOf]

lemma ingestLoop_raise (img : ImageInput) (e : PyStr) (rest : List ImageInput)
    (hd : img.onDisk = true) (ho : img.outcome = .raised e) (pre : List ImageInput) :
    ∀ s : Summary, (∀ i ∈ pre, raisesExc i = false) →
    ingestLoop (pre ++ img :: rest) s = .error e := by
  induction pre with
  | nil => intro s _; simp [ingestLoop, hd, ho]
  | cons p pre2 ih =>
    intro s h
    have hpre2 : ∀ i ∈ pre2, raisesExc i = false :=
      fun i hi => h i (List.mem_cons_of_mem _ hi)
    by_cases hpd : p.onDisk
    · cases hpo : p.outcome with
      | raised e2 =>
        have hr := h p (List.mem_cons_self _ _)
        rw [raisesExc, hpo, hpd] at hr
        exact Bool.noConfusion hr
      | errorRes m => simp [ingestLoop, hpd, hpo, ih _ hpre2]
      | skippedRes eid => simp [ingestLoop, hpd, hpo, ih _ hpre2]
      | processedRes es => simp [ingestLoop, hpd, hpo, ih _ hpre2]
    · simp [ingestLoop, hpd, ih _ hpre2]

/-- C2 (amended): failures surfaced as RESULT VALUES — a missing file, or a
per-image error dictionary (hash failure, no text) — are recorded in the run
summary and the loop continues, producing the full partitioned summary; but an
EXCEPTION raised mid-image (e.g. by `embed` or by `faiss_index.add_entry`,
which re-raises) propagates out of the loop: the batch aborts, later images
are never processed and even the summary accumulated so far is lost. -/
theorem C2_batch_continuation_and_abort :
    (∀ imgs : List ImageInput, (∀ i ∈ imgs, raisesExc i = false) →
      ingest_journal_images imgs = .ok ⟨(imgs.map processedOf).flatten,
        imgs.filterMap skippedOf, imgs.filterMap errorOf⟩) ∧
    (∀ (pre : List ImageInput) (img : ImageInput) (rest : List ImageInput) (e : PyStr),
      (∀ i ∈ pre, raisesExc i = false) → img.onDisk = true →
      img.outcome = .raised e →
      ingest_journal_images (pre ++ img :: rest) = .error e) := by
  constructor
  · intro imgs h
    unfold ingest_journal_images
    rw [ingestLoop_no_raise imgs _ h]
    simp
  · intro pre img rest e hpre hd ho
    exact ingestLoop_raise img e rest hd ho pre _ hpre

/-- Witness for C2 on a concrete exception-free batch with one error result
and one missing file: both failures are recorded, the third image is still
processed. -/
theorem C2_witness :
    (∀ i ∈ imgs0, raisesExc i = false) ∧
    ingest_journal_images imgs0
      = .ok ⟨[7, 8], [], [str "a.jpg: boom", str "File not found: missing.jpg"]⟩ :=
  ⟨by decide, C2_batch_continuation_and_abort.1 imgs0 (by decide)⟩

/-- C2 counterexample: an exception raised while processing the first image
aborts the batch — `ingest_journal_images` returns the exception, the second
(perfectly processable) image contributes nothing, and the failure is NOT
recorded in any run summary. -/
theorem C2_exception_aborts_batch :
    ingest_journal_images
      [⟨str "a.jpg", true, .raised (str "boom")⟩,
       ⟨str "b.jpg", true, .processedRes [7]⟩] = .error (str "boom") := rfl

/-! ## Claim C5: OCR fallback -/

/-- C5 (amended): the fallback to tesseract happens EXACTLY when the primary
OpenAI call raises; a successful primary call — even one returning empty or
`None` content — is passed through (stripped, confidence 0.9) without
consulting the secondary engine, and the image terminates in
error("No text extracted from image") precisely when the text that OCR
returned strips to empty. -/
theorem C5_fallback_on_exception_only (pr : Except PyStr (Option PyStr))
    (fbRaw : Option PyStr) (fbConf : ℚ) :
    (∀ e, pr = .error e →
      ocr_with_openai pr fbRaw fbConf = ocr_with_tesseract fbRaw fbConf) ∧
    (∀ t, pr = .ok t →
      ocr_with_openai pr fbRaw fbConf = (strip (t.getD []), 9 / 10)) ∧
    (ocrStep pr fbRaw fbConf = .error (str "No text extracted from image") ↔
      strip (ocr_with_openai pr fbRaw fbConf).1 = []) := by
  refine ⟨?_, ?_, ?_⟩
  · intro e he
    rw [he]
    rfl
  · intro t ht
    rw [ht]
    cases t <;> rfl
  · simp only [ocrStep]
    split
    · next h => simp [h]
    · next h => simp [h]

/-- Witness for C5: a raising primary call falls back; a successful one keeps
its own text. -/
theorem C5_witness :
    ocr_with_openai (.error (str "timeout")) (some (str "hi")) 1
        = ocr_with_tesseract (some (str "hi")) 1 ∧
    ocr_with_openai (.ok (some (str "hi"))) none 0 = (strip (str "hi"), 9 / 10) :=
  ⟨(C5_fallback_on_exception_only (.error (str "timeout")) (some (str "hi")) 1).1 _ rfl,
   (C5_fallback_on_exception_only (.ok (some (str "hi"))) none 0).2.1 _ rfl⟩

/-- C5 counterexample: the primary engine SUCCEEDS with empty content while
tesseract would have returned "hello"; no fallback happens — the OCR result is
empty (confidence 0.9) and the image terminates in
error("No text extracted from image") without the secondary engine ever being
consulted. -/
theorem C5_empty_primary_no_fallback :
    ocr_with_openai (.ok (some [])) (some (str "hello")) 1 = ([], 9 / 10) ∧
    ocrStep (.ok (some [])) (some (str "hello")) 1
      = .error (str "No text extracted from image") ∧
    ocr_with_tesseract (some (str "hello")) 1 = (str "hello", 1) := by
  refine ⟨rfl, rfl, by decide⟩

/-! ## Claim C10: a skipped first block loses the image hash -/

lemma processBlocks_shape (ihash : PyStr) (blocks : List (Option DateT × PyStr)) :
    ∀ (db : DB) (n i : Nat), ∃ tail,
      (processBlocks ihash db n i blocks).1 = db ++ tail ∧
      (1 ≤ i → ∀ r ∈ tail, r.image_hash = none) := by
  induction blocks with
  | nil =>
    intro db n i
    exact ⟨[], by simp [processBlocks], by simp⟩
  | cons b rest ihb =>
    intro db n i
    obtain ⟨bd, bt⟩ := b
    cases hdt : check_duplicate_text (compute_text_hash bt) db with
    | some _ =>
      obtain ⟨tail, h1, h2⟩ := ihb db n (i + 1)
      refine ⟨tail, ?_, fun _ => h2 (by omega)⟩
      simp only [processBlocks, hdt]
      exact h1
    | none =>
      obtain ⟨tail, h1, h2⟩ :=
        ihb (db ++ [⟨n, bd, bt, if i = 0 then some ihash else none,
          compute_text_hash bt⟩]) (n + 1) (i + 1)
      refine ⟨⟨n, bd, bt, if i = 0 then some ihash else none,
        compute_text_hash bt⟩ :: tail, ?_, ?_⟩
      · simp only [processBlocks, hdt]
        rw [h1, List.append_assoc, List.singleton_append]
      · intro hi r hr
        rcases List.mem_cons.mp hr with h | h
        · subst h
          simp [show ¬i = 0 by omega]
        · exact h2 (by omega) r h

/-- C10: when the first segmented block of an image is skipped because its
text fingerprint already exists, every record the image run creates has
`image_hash = none` (only block index 0 ever carries the perceptual hash), so
the grown database still has no row matching the image's hash and a later run
over the same image is NOT short-circuited as `skippedDup` — it is
reprocessed. -/
theorem C10_skipped_first_block_loses_image_hash
    (ihash ocrText : PyStr) (fd : List (PyStr × DateT)) (db : DB) (n : Nat)
    (hnew : check_duplicate_image ihash db = none)
    (hocr : ¬strip ocrText = [])
    (hskip : ∃ b0 rest, extract_dates_and_split ocrText fd = b0 :: rest ∧
        check_duplicate_text (compute_text_hash b0.2) db ≠ none) :
    (∃ tail, (process_journal_image ihash ocrText fd db n).2 = db ++ tail ∧
       ∀ r ∈ tail, r.image_hash = none) ∧
    check_duplicate_image ihash (process_journal_image ihash ocrText fd db n).2 = none ∧
    (∀ n2 eid : Nat,
      (process_journal_image ihash ocrText fd
          (process_journal_image ihash ocrText fd db n).2 n2).1
        ≠ ProcessResult.skippedDup eid) := by
  obtain ⟨b0, brest, heq, hdup⟩ := hskip
  obtain ⟨b0d, b0t⟩ := b0
  have hblocks : processBlocks ihash db n 0 (extract_dates_and_split ocrText fd)
      = processBlocks ihash db n 1 brest := by
    rw [heq]
    cases hdt : check_duplicate_text (compute_text_hash b0t) db with
    | none => exact absurd hdt hdup
    | some _ => simp [processBlocks, hdt]
  have hrun : (process_journal_image ihash ocrText fd db n).2
      = (processBlocks ihash db n 1 brest).1 := by
    simp [process_journal_image, hnew, hocr, hblocks]
  obtain ⟨tail, h1, h2⟩ := processBlocks_shape ihash brest db n 1
  have htail := h2 (le_refl 1)
  have hdb2 : (process_journal_image ihash ocrText fd db n).2 = db ++ tail := by
    rw [hrun, h1]
  have hfind : check_duplicate_image ihash (db ++ tail) = none := by
    unfold check_duplicate_image at hnew ⊢
    rw [List.find?_append, hnew]
    simp only [Option.none_or]
    apply List.find?_eq_none.mpr
    intro r hr
    rw [htail r hr]
    simp
  refine ⟨⟨tail, hdb2, htail⟩, ?_, ?_⟩
  · rw [hdb2]
    exact hfind
  · intro n2 eid
    rw [hdb2]
    simp only [process_journal_image, hfind]
    split <;> simp

/-- Witness for C10: over `ocr0` (a single-block text whose fingerprint is
already in `db0`) the image `ih0` is processed, yet afterwards the
duplicate-image lookup still finds nothing. -/
theorem C10_witness :
    check_duplicate_image ih0 db0 = none ∧
    ¬strip ocr0 = [] ∧
    extract_dates_and_split ocr0 [] = [(none, ocr0)] ∧
    check_duplicate_text (compute_text_hash ocr0) db0 ≠ none ∧
    check_duplicate_image ih0 (process_journal_image ih0 ocr0 [] db0 10).2 = none :=
  ⟨by decide, by decide, by decide, by decide,
   (C10_skipped_first_block_loses_image_hash ih0 ocr0 [] db0 10 (by decide) (by decide)
     ⟨(none, ocr0), [], by decide, by decide⟩).2.1⟩

end JournalInsight
